import Mathlib

/-!
# Verification of glowrs core components

Shallow embedding of the glowrs embeddings server's pure logic, translated
from the Rust sources, together with theorems checking the repository's
specification against it:

* `crates/glowrs/src/model/utils.rs` — `parse_repo_string`
* `crates/glowrs-server/src/server/data_models.rs` — `EmbeddingsResponse::from_embeddings`
* `crates/glowrs/src/core/embedder.rs` — `encode_batch_with_usage` and the
  `EmbedderModel` implementations
* `crates/glowrs/src/core/config/parse.rs` — `parse_config` / `get_backend_model_type`
* `crates/glowrs-server/src/server/infer/executor.rs` and `client.rs` — the
  dedicated executor worker loop and its client

Machine integers (`u32` casts) are modelled as `Nat` with explicit `% 2^32`
where the Rust code performs an `as u32` cast.  `f32` tensor entries are
modelled as exact rationals: the claims under study are about *which*
arithmetic expression is computed, not about rounding.  Rust `&str` values
inspected character by character are modelled as `List Char`.
-/

namespace Glowrs

/-- Tensor scalar: `f32` entries modelled as exact rationals. -/
abbrev Scalar := Rat

/-- Rust `&str`, modelled as its character sequence. -/
abbrev Str := List Char

/-! ## `parse_repo_string` (crates/glowrs/src/model/utils.rs)

```rust
pub fn parse_repo_string(repo_string: &str) -> anyhow::Result<(&str, &str, EmbedderType)> {
    if repo_string.is_empty() { return Err(..."Model repository string is empty"); }
    const ILLEGAL_CHARS: [char; 6] = ['\\', '<', '>', '|', '?', '*'];
    if repo_string.chars().any(|c| ILLEGAL_CHARS.contains(&c)) {
        return Err(..."Model repository string contains illegal characters");
    }
    let parts: Vec<&str> = repo_string.split(':').collect();
    let model_repo = parts[0];
    let mut revision = *parts.get(1).unwrap_or(&"main");
    if revision.is_empty() { revision = "main"; }
    let embedder_type_str = parts.get(2).cloned();
    let embedder_type = match embedder_type_str {
        None => if model_repo.contains("jinaai") { EmbedderType::JinaBert }
                else { EmbedderType::Bert },
        Some(embedder_type) => match &*embedder_type.to_lowercase() {
            "bert" => EmbedderType::Bert,
            "jinabert" => EmbedderType::JinaBert,
            _ => return Err(..."Invalid embedder type"),
        },
    };
    Ok((model_repo, revision, embedder_type))
}
```
-/

/-- `EmbedderType` from `crates/glowrs/src/model/embedder.rs`. -/
inductive EmbedderType where
  | bert
  | jinaBert
  deriving DecidableEq, Repr

/-- The `ILLEGAL_CHARS` array of `parse_repo_string`. -/
def illegalChars : List Char := ['\\', '<', '>', '|', '?', '*']

/-- Rust `str::split(sep)` for a single-character separator: the list of
(possibly empty) chunks between occurrences of `sep`. -/
def splitOnChar (sep : Char) : Str → List Str
  | [] => [[]]
  | c :: rest =>
      let r := splitOnChar sep rest
      if c = sep then [] :: r
      else (c :: r.headD []) :: r.tail

/-- `p` is a prefix of `s` (executable helper for substring search). -/
def isPrefixL : Str → Str → Bool
  | [], _ => true
  | _ :: _, [] => false
  | a :: as, b :: bs => a = b && isPrefixL as bs

/-- Rust `str::contains(pat)`: some suffix of `s` starts with `pat`. -/
def containsSub (pat : Str) : Str → Bool
  | [] => isPrefixL pat []
  | c :: rest => isPrefixL pat (c :: rest) || containsSub pat rest

/-- Rust `str::to_lowercase`; `Char.toLower` agrees with it on every
comparison performed below (the targets `"bert"`/`"jinabert"` are ASCII). -/
def strToLower (s : Str) : Str := s.map Char.toLower

/-- Shallow embedding of `parse_repo_string`.  Errors carry the Rust error
message. -/
def parse_repo_string (repo_string : Str) :
    Except String (Str × Str × EmbedderType) :=
  if repo_string.isEmpty then
    .error "Model repository string is empty"
  else if repo_string.any (fun c => illegalChars.contains c) then
    .error "Model repository string contains illegal characters"
  else
    let parts := splitOnChar ':' repo_string
    let model_repo := parts.headD []
    let revision0 := parts.getD 1 "main".toList
    let revision := if revision0.isEmpty then "main".toList else revision0
    match parts.get? 2 with
    | none =>
        if containsSub "jinaai".toList model_repo then
          .ok (model_repo, revision, .jinaBert)
        else
          .ok (model_repo, revision, .bert)
    | some et =>
        if strToLower et = "bert".toList then .ok (model_repo, revision, .bert)
        else if strToLower et = "jinabert".toList then .ok (model_repo, revision, .jinaBert)
        else .error "Invalid embedder type"

/-! ## `EmbeddingsResponse::from_embeddings` (glowrs-server data_models.rs)

```rust
pub fn from_embeddings(embeddings: Tensor, usage: Usage, model: String) -> Self {
    let inner_responses: Vec<InnerEmbeddingsResponse> = embeddings
        .to_vec2().unwrap().into_iter().enumerate()
        .map(|(index, embedding)| InnerEmbeddingsResponse {
            object: "core".to_string(),
            embedding,
            index: index as u32,
        })
        .collect();
    EmbeddingsResponse { object: "list".to_string(), data: inner_responses, model, usage }
}
```
-/

/-- `Usage` from `crates/glowrs/src/lib.rs`; the `u32` fields are `Nat`s
that the embedding keeps below `2^32` by explicit reduction at cast sites. -/
structure Usage where
  prompt_tokens : Nat
  total_tokens : Nat
  deriving DecidableEq, Repr

/-- `InnerEmbeddingsResponse` from glowrs-server `data_models.rs`. -/
structure InnerEmbeddingsResponse where
  object : String
  embedding : List Scalar
  index : Nat
  deriving DecidableEq, Repr

/-- `EmbeddingsResponse` from glowrs-server `data_models.rs`. -/
structure EmbeddingsResponse where
  object : String
  data : List InnerEmbeddingsResponse
  model : String
  usage : Usage
  deriving DecidableEq, Repr

/-- Shallow embedding of `EmbeddingsResponse::from_embeddings`.  The tensor
argument is already the `N × H` row list produced by `to_vec2`; `index as
u32` is the `% 2^32` reduction. -/
def EmbeddingsResponse.from_embeddings (embeddings : List (List Scalar))
    (usage : Usage) (model : String) : EmbeddingsResponse :=
  { object := "list"
    data := embeddings.enum.map (fun p =>
      { object := "core"
        embedding := p.2
        index := p.1 % 2 ^ 32 })
    model := model
    usage := usage }

/-! ## Pooling and model types (crates/glowrs/src/pooling.rs, core/config/model.rs) -/

/-- `PoolingStrategy` from `crates/glowrs/src/pooling.rs`. -/
inductive PoolingStrategy where
  | cls
  | mean
  | splade
  deriving DecidableEq, Repr

/-- `ModelType` from `crates/glowrs/src/core/config/model.rs`. -/
inductive ModelType where
  | classifier
  | embedding (ps : PoolingStrategy)
  deriving DecidableEq, Repr

/-- `PoolConfig` from `crates/glowrs/src/pooling.rs` (`1_Pooling/config.json`). -/
structure PoolConfig where
  pooling_mode_cls_token : Bool
  pooling_mode_mean_tokens : Bool
  pooling_mode_max_tokens : Bool
  pooling_mode_mean_sqrt_len_tokens : Bool
  deriving DecidableEq, Repr

/-! ## `encode_batch_with_usage` (crates/glowrs/src/core/embedder.rs)

```rust
let tokens = tokenizer.encode_batch_fast(sentences, true)?;
let prompt_tokens = tokens.len() as u32;
let usage = Usage { prompt_tokens, total_tokens: prompt_tokens };
let token_ids = tokens.iter().map(...).collect...;
let token_ids = Tensor::stack(&token_ids, 0)?;
let embeddings = model.encode(&token_ids)?;
let pooling_strategy = match model_type {
    ModelType::Classifier => &PoolingStrategy::Cls,
    ModelType::Embedding(ps) => ps,
};
let embeddings = match pooling_strategy {
    PoolingStrategy::Cls => embeddings.i((.., 0))?,
    PoolingStrategy::Mean => {
        let pad_id = tokenizer.get_padding().map_or(0, |pp| pp.pad_id);
        let attention_mask = token_ids.ne(pad_id)?.unsqueeze(D::Minus1)?
            .to_dtype(embeddings.dtype())?;
        embeddings.broadcast_mul(&attention_mask)?.sum(1)?
    }
    PoolingStrategy::Splade => panic!("SPLADE is not yet implemented."),
};
let embeddings = { if normalize { normalize_l2(&embeddings)? } else { embeddings } };
Ok(EmbedOutput { embeddings, usage })
```

The tokenizer and the neural forward pass are external collaborators; they
are modelled by their interface contracts: the tokenizer maps each sentence
to a token-id sequence and pads the batch to its longest member
(`PaddingStrategy::BatchLongest`), and `model.encode` is an arbitrary
function from the `N × L` id matrix to an `N × L × H` tensor.
`normalize_l2` (a square-root based tensor op) is likewise a parameter; the
claims under study all concern the `normalize = false` path or properties
independent of it. -/

/-- The external tokenizer: a per-sentence encoding function plus the
configured padding pad id (`None` when no padding is configured, in which
case `get_padding()` is `None` and a pad id of `0` is used as default). -/
structure Tokenizer where
  tok : String → List Nat
  padding : Option Nat

/-- `tokenizer.encode_batch_fast(sentences, true)` under
`PaddingStrategy::BatchLongest`: one encoding per input sentence, all padded
to the longest with the pad id. -/
def Tokenizer.encodeBatchFast (t : Tokenizer) (sentences : List String) :
    List (List Nat) :=
  let raw := sentences.map t.tok
  let longest := (raw.map List.length).foldr max 0
  raw.map (fun ids => ids ++ List.replicate (longest - ids.length) (t.padding.getD 0))

/-- `EmbedOutput` from `crates/glowrs/src/core/embedder.rs`. -/
structure EmbedOutput where
  embeddings : List (List Scalar)
  usage : Usage
  deriving DecidableEq, Repr

/-- Outcome of a Rust call that can return `Ok`, return `Err`, or panic. -/
inductive EncodeResult (α : Type) where
  | ok (a : α)
  | err (msg : String)
  | panicked (msg : String)
  deriving DecidableEq, Repr

/-- Whether an `EncodeResult` is an `Err` return (an error result, as
opposed to a success or a panic). -/
def EncodeResult.isErr {α : Type} : EncodeResult α → Bool
  | .err _ => true
  | _ => false

/-- `token_ids.ne(pad_id)` followed by `to_dtype`: the `N × L` 0/1 mask. -/
def tensorNe (token_ids : List (List Nat)) (v : Nat) : List (List Scalar) :=
  token_ids.map (fun row => row.map (fun tid => if tid ≠ v then 1 else 0))

/-- Componentwise sum of two `H`-vectors (`Tensor` addition). -/
def addVec (v w : List Scalar) : List Scalar := List.zipWith (· + ·) v w

/-- Sum of a list of `H`-vectors (the `sum(1)` reduction along dim 1). -/
def sumVecs : List (List Scalar) → List Scalar
  | [] => []
  | v :: vs => vs.foldl addVec v

/-- `embeddings.broadcast_mul(&attention_mask)?.sum(1)`: scale each token
vector by its mask entry (the `unsqueeze(-1)` broadcast), then sum along
the token axis. -/
def broadcastMulSum (embeddings : List (List (List Scalar)))
    (mask : List (List Scalar)) : List (List Scalar) :=
  (embeddings.zip mask).map (fun p =>
    sumVecs ((p.1.zip p.2).map (fun q => q.1.map (fun x => q.2 * x))))

/-- Shallow embedding of `encode_batch_with_usage`
(crates/glowrs/src/core/embedder.rs).  `encode` is the neural forward pass
of the `EmbedderModel` and `nl2` is `normalize_l2`, both external tensor
computations passed as parameters. -/
def encode_batch_with_usage
    (encode : List (List Nat) → List (List (List Scalar)))
    (nl2 : List (List Scalar) → List (List Scalar))
    (tokenizer : Tokenizer) (sentences : List String)
    (model_type : ModelType) (normalize : Bool) : EncodeResult EmbedOutput :=
  let tokens := tokenizer.encodeBatchFast sentences
  let prompt_tokens := tokens.length % 2 ^ 32
  let usage : Usage := ⟨prompt_tokens, prompt_tokens⟩
  let token_ids := tokens
  let embeddings := encode token_ids
  let pooling_strategy : PoolingStrategy :=
    match model_type with
    | .classifier => .cls
    | .embedding ps => ps
  match pooling_strategy with
  | .cls =>
      let pooled := embeddings.map (fun seq => seq.headD [])
      .ok ⟨if normalize then nl2 pooled else pooled, usage⟩
  | .mean =>
      let pad_id := tokenizer.padding.getD 0
      let attention_mask := tensorNe token_ids pad_id
      let pooled := broadcastMulSum embeddings attention_mask
      .ok ⟨if normalize then nl2 pooled else pooled, usage⟩
  | .splade => .panicked "SPLADE is not yet implemented."

/-! ## `EmbedderModel for DistilBertModel` (crates/glowrs/src/core/embedder.rs)

```rust
fn encode(&self, token_ids: &Tensor) -> Result<Tensor> {
    let size = token_ids.dim(0)?;
    let mask: Vec<_> = (0..size)
        .flat_map(|i| (0..size).map(move |j| u8::from(j > i)))
        .collect();
    let mask = Tensor::from_slice(&mask, (size, size), token_ids.device())?;
    Ok(self.forward(token_ids, &mask)?)
}
```
-/

/-- The square byte mask built by the DistilBert `encode`: entry `(i, j)` is
`u8::from(j > i)`. -/
def distilBertMask (size : Nat) : List (List Nat) :=
  (List.range size).map (fun i => (List.range size).map (fun j => if j > i then 1 else 0))

/-- Shallow embedding of the DistilBert `encode`: `size` is
`token_ids.dim(0)`, and the mask is passed to the underlying `forward`
(abstract external computation `forward`). -/
def distilBertEncode
    (forward : List (List Nat) → List (List Nat) → List (List (List Scalar)))
    (token_ids : List (List Nat)) : List (List (List Scalar)) :=
  forward token_ids (distilBertMask token_ids.length)

/-- The mask the specification describes: an upper-triangular `L × L` byte
matrix over the *sequence length* `L` of the `N × L` input, with
`mask[i][j] = 1 iff j > i`.  (Spec-side definition, for comparison with
`distilBertMask` applied to `dim(0)`.) -/
def specDistilBertMask (tokenIds : List (List Nat)) : List (List Nat) :=
  let L := (tokenIds.headD []).length
  (List.range L).map (fun i => (List.range L).map (fun j => if j > i then 1 else 0))

/-! ## Config parsing (crates/glowrs/src/core/config/parse.rs, model.rs)

`config.json` is modelled by the projection that the two deserializations
(`BaseModelConfig`, `EmbedderConfig`) inspect: the base fields, the
`model_type` tag, and — for the architecture-specific remainder, which an
external serde derive on the candle config types consumes — one flag per
candle config type saying whether those fields deserialize. -/

/-- The content of a `config.json`, as seen by the two deserializations in
`parse_config`.  `none` models an absent field. -/
structure ConfigJson where
  architectures : Option (List Str)
  model_type : Option Str
  max_position_embeddings : Option Nat
  pad_token_id : Option Nat
  bertFieldsOk : Bool
  jinaFieldsOk : Bool
  distilbertFieldsOk : Bool

/-- `BaseModelConfig` from `crates/glowrs/src/core/config/model.rs`. -/
structure BaseModelConfig where
  architectures : List Str
  model_type : Str
  max_position_embeddings : Nat
  pad_token_id : Nat

/-- `BertConfig` from `core/config/model.rs` (untagged union; the candle
config payloads are abstracted away). -/
inductive BertConfig where
  | bert
  | jinaBert
  deriving DecidableEq, Repr

/-- `EmbedderConfig` from `core/config/model.rs` (tagged on `model_type`). -/
inductive EmbedderConfig where
  | bert (c : BertConfig)
  | distilBert
  deriving DecidableEq, Repr

/-- The error kinds surfaced by `parse_config` (`crate::Error`). -/
inductive ConfigError where
  | serde (msg : String)
  | io (msg : String)
  | modelLoad (msg : String)
  | noPoolingConfiguration (msg : String)
  deriving DecidableEq, Repr

/-- `serde_json::from_str::<BaseModelConfig>`: `architectures`,
`model_type` and `max_position_embeddings` (alias `n_positions`) are
required; `pad_token_id` defaults to `0`; `id2label`/`label2id` are
`Option`s and never fail. -/
def parseBaseModelConfig (c : ConfigJson) : Except ConfigError BaseModelConfig :=
  match c.architectures, c.model_type, c.max_position_embeddings with
  | some archs, some mt, some mpe => .ok ⟨archs, mt, mpe, c.pad_token_id.getD 0⟩
  | _, _, _ => .error (.serde "missing field in BaseModelConfig")

/-- `serde_json::from_str::<EmbedderConfig>`: internally tagged on
`model_type` (`"bert"` or `"distilbert"`); the `"bert"` payload is the
untagged `BertConfig`, which tries the candle Bert fields first and the
JinaBert fields second. -/
def parseEmbedderConfig (c : ConfigJson) : Except ConfigError EmbedderConfig :=
  match c.model_type with
  | none => .error (.serde "missing model_type tag")
  | some tag =>
      if tag = "bert".toList then
        if c.bertFieldsOk then .ok (.bert .bert)
        else if c.jinaFieldsOk then .ok (.bert .jinaBert)
        else .error (.serde "data did not match any variant of untagged enum BertConfig")
      else if tag = "distilbert".toList then
        if c.distilbertFieldsOk then .ok .distilBert
        else .error (.serde "invalid distilbert fields")
      else .error (.serde "unknown variant of EmbedderConfig")

/-- The `for arch in &config.architectures` loop of
`get_backend_model_type`: the first architecture that matches a branch
decides; otherwise the loop falls through. -/
def archScan (p : PoolingStrategy) : List Str → Option ModelType
  | [] => none
  | arch :: rest =>
      if p = .splade ∧ "MaskedLM".toList.isSuffixOf arch then
        some (.embedding .splade)
      else if "Classification".toList.isSuffixOf arch then
        some .classifier
      else archScan p rest

/-- The `let pool: Result<_> = match (pooling, pooling_config_path)` block:
resolve the pooling strategy from the explicit argument or the pooling
config file.  `pooling_config` models `1_Pooling/config.json`: `none` when
the path is absent, and otherwise the outcome of reading and parsing it. -/
def resolvePool (pooling : Option PoolingStrategy)
    (pooling_config : Option (Except ConfigError PoolConfig)) :
    Except ConfigError PoolingStrategy :=
  match pooling, pooling_config with
  | some ps, _ => .ok ps
  | none, some pc => do
      let config ← pc
      if config.pooling_mode_cls_token then .ok .cls
      else if config.pooling_mode_mean_tokens then .ok .mean
      else .error (.modelLoad "Pooling config {config:?} is not supported")
  | none, none => .error (.noPoolingConfiguration
      "No pooling configuration provided or found in model repository.")

/-- Shallow embedding of `get_backend_model_type`
(crates/glowrs/src/core/config/parse.rs). -/
def get_backend_model_type (config : BaseModelConfig)
    (pooling_config : Option (Except ConfigError PoolConfig))
    (pooling : Option PoolingStrategy) : Except ConfigError ModelType :=
  let scanned : Option ModelType :=
    match pooling with
    | some p => archScan p config.architectures
    | none => none
  match scanned with
  | some mt => .ok mt
  | none =>
      if pooling = some .splade then
        .error (.modelLoad "Splade pooling is not supported: core is not a *ForMaskedLM core")
      else do
        let pool ← resolvePool pooling pooling_config
        .ok (.embedding pool)

/-- `SentenceTransformerConfig` from `core/config/model.rs` (the raw
`tokenizer_config` JSON value is not modelled beyond its validity). -/
structure SentenceTransformerConfig where
  embedder_config : EmbedderConfig
  model_type : ModelType
  deriving DecidableEq, Repr

/-- Shallow embedding of `parse_config`
(crates/glowrs/src/core/config/parse.rs).  `tokenizer_ok` is whether
`tokenizer.json` reads and parses as JSON (checked between the config
deserializations and the model-type resolution, as in the source). -/
def parse_config (config : ConfigJson) (tokenizer_ok : Bool)
    (pooling_config : Option (Except ConfigError PoolConfig))
    (pooling_strategy : Option PoolingStrategy) :
    Except ConfigError SentenceTransformerConfig := do
  let hf_config ← parseBaseModelConfig config
  let embedder_config ← parseEmbedderConfig config
  if tokenizer_ok then
    let model_type ← get_backend_model_type hf_config pooling_config pooling_strategy
    .ok ⟨embedder_config, model_type⟩
  else
    .error (.serde "tokenizer.json is not valid JSON")

/-! ## The dedicated executor (server/infer/executor.rs, client.rs, batch.rs)

```rust
'main: while let Some(cmd) = receiver.recv().await {
    match cmd {
        Append(entry) => {
            tracing::trace!(...);
            let response = processor.handle(entry.request)?;
            if entry.response_tx.send(response).is_ok() { tracing::trace!(...) }
            else { tracing::error!(...) }
        }
        Stop => { tracing::info!(...); break 'main; }
    }
}
Ok(())
```

The handler (`RequestHandler::handle(&mut self, request) -> Result<Output>`)
is modelled as a state-passing function `S → I → Except E (O × S)`.  The
unbounded tokio MPSC channel delivers commands in send order, so a run of
the worker loop is determined by the list of commands in that order.  Each
`QueueEntry` carries the fresh UUID generated by `Client::send` and whether
its one-shot reply receiver is still held when the reply is sent. -/

/-- `QueueEntry` from `server/infer/batch.rs`: task id, request payload and
the one-shot reply sender (represented by whether its receiver is alive). -/
structure QueueEntry (I : Type) where
  id : Nat
  request : I
  rxAlive : Bool

/-- `Command` from `server/infer/executor.rs`. -/
inductive Command (I : Type) where
  | append (e : QueueEntry I)
  | stop

/-- Observable events of one worker-loop iteration. -/
inductive Event where
  | invoked (id : Nat)
  | replied (id : Nat)
  | replyFailed (id : Nat)
  | stopped
  deriving DecidableEq, Repr

/-- Shallow embedding of the worker loop `queue_task`: consume the received
commands in order, returning the event trace and the loop's result.  The
`?` on `processor.handle` makes an `Err` return from the handler return
from `queue_task` immediately, before any reply is sent. -/
def queue_task {I O S E : Type} (handle : S → I → Except E (O × S)) :
    List (Command I) → S → List Event × Except E Unit
  | [], _ => ([], .ok ())
  | .append e :: rest, s =>
      match handle s e.request with
      | .error err => ([.invoked e.id], .error err)
      | .ok (_, s') =>
          let ev := if e.rxAlive then Event.replied e.id else Event.replyFailed e.id
          let r := queue_task handle rest s'
          (.invoked e.id :: ev :: r.1, r.2)
  | .stop :: _, _ => ([.stopped], .ok ())

/-- The task ids of the `Append` commands of a command list, in order.
`Client::send` draws each from `Uuid::new_v4()`, so they are pairwise
distinct. -/
def appendedIds {I : Type} : List (Command I) → List Nat
  | [] => []
  | .append e :: rest => e.id :: appendedIds rest
  | .stop :: rest => appendedIds rest

/-- An event resolves the reply of entry `n`: the one-shot send for `n` was
performed (successfully, or observed as a dropped receiver). -/
def resolvesReply (ev : Event) (n : Nat) : Prop :=
  ev = .replied n ∨ ev = .replyFailed n

/-! ### Whole-executor state machine

For the claims about `Client::send` interacting with the worker thread's
lifetime, the executor is modelled as a state machine: the channel contents
(commands sent but not yet received), the handler state, the worker status,
and the event trace.  `Client::send` appends to the channel and fails iff
the channel is closed — which happens exactly when `queue_task` has
returned and its receiver is dropped.  A worker step receives and processes
one command as in `queue_task` (receiving blocks, it never closes the loop
while a `Client` holds a sender). -/

/-- Whether the worker thread's `queue_task` is still looping, or has
returned with the given result (dropping the channel receiver). -/
inductive WorkerStatus (E : Type) where
  | running
  | exited (res : Except E Unit)

/-- State of one `DedicatedExecutor` with its clients. -/
structure ExecState (I S E : Type) where
  chan : List (Command I)
  handler : S
  status : WorkerStatus E
  trace : List Event

/-- An interaction with the executor: a `Client::send` of a fresh entry, or
the worker thread receiving and processing one command. -/
inductive ExecAction (I : Type) where
  | clientSend (e : QueueEntry I)
  | workerStep

/-- Result observed by the caller of `Client::send`: `self.tx.send(command)?`
succeeds while the channel is open and returns `Err` once the receiver has
been dropped. -/
inductive SendResult where
  | sendOk
  | sendErr
  deriving DecidableEq, Repr

/-- One step of the executor state machine.  Returns the successor state
and, for a `clientSend`, what `Client::send` returned. -/
def execStep {I O S E : Type} (handle : S → I → Except E (O × S))
    (st : ExecState I S E) : ExecAction I → ExecState I S E × Option SendResult
  | .clientSend e =>
      match st.status with
      | .exited _ => (st, some .sendErr)
      | .running => ({ st with chan := st.chan ++ [.append e] }, some .sendOk)
  | .workerStep =>
      match st.status with
      | .exited _ => (st, none)
      | .running =>
          match st.chan with
          | [] => (st, none)
          | .append e :: rest =>
              match handle st.handler e.request with
              | .error err =>
                  (⟨rest, st.handler, .exited (.error err),
                    st.trace ++ [.invoked e.id]⟩, none)
              | .ok (_, s') =>
                  let ev := if e.rxAlive then Event.replied e.id else Event.replyFailed e.id
                  (⟨rest, s', .running, st.trace ++ [.invoked e.id, ev]⟩, none)
          | .stop :: rest =>
              (⟨rest, st.handler, .exited (.ok ()), st.trace ++ [.stopped]⟩, none)

/-- Run the executor state machine over a list of actions. -/
def execRun {I O S E : Type} (handle : S → I → Except E (O × S))
    (st : ExecState I S E) : List (ExecAction I) → ExecState I S E
  | [] => st
  | a :: rest => execRun handle (execStep handle st a).1 rest

/-! ## General list lemmas -/

theorem enumFrom_get? {α : Type} :
    ∀ (l : List α) (k n : Nat),
      (l.enumFrom k).get? n = (l.get? n).map (fun a => (k + n, a))
  | [], _, _ => by simp
  | a :: as, k, 0 => by simp [List.enumFrom]
  | a :: as, k, n + 1 => by
      show (List.enumFrom (k + 1) as).get? n
        = (as.get? n).map (fun x => (k + (n + 1), x))
      rw [enumFrom_get? as (k + 1) n]
      simp [Nat.add_assoc, Nat.add_comm 1 n]

theorem getD_of_get? {α : Type} {l : List α} {n : Nat} {a : α} (d : α)
    (h : l.get? n = some a) : l.getD n d = a := by
  simp [List.getD_eq_getElem?_getD, ← List.get?_eq_getElem?, h]

theorem get?_lt {α : Type} {l : List α} {n : Nat} (d : α) (h : n < l.length) :
    l.get? n = some (l.getD n d) := by
  have h' := List.get?_eq_get h
  rw [h']
  congr 1
  exact (getD_of_get? d h').symm

theorem getD_range_of_lt {n i : Nat} (d : Nat) (h : i < n) :
    (List.range n).getD i d = i :=
  getD_of_get? d (by rw [List.get?_eq_getElem?]; exact List.getElem?_range h)

theorem getD_map_of_lt {α β : Type} (f : α → β) (d : α) (d' : β) :
    ∀ (l : List α) (n : Nat), n < l.length → (l.map f).getD n d' = f (l.getD n d)
  | a :: as, 0, _ => by simp
  | a :: as, n + 1, h => by
      simpa using getD_map_of_lt f d d' as n (by simpa using h)

theorem getD_zip_of_lt {α β : Type} (da : α) (db : β) :
    ∀ (as : List α) (bs : List β) (n : Nat), n < as.length → n < bs.length →
      (as.zip bs).getD n (da, db) = (as.getD n da, bs.getD n db)
  | a :: as, b :: bs, 0, _, _ => by simp
  | a :: as, b :: bs, n + 1, ha, hb => by
      simpa using getD_zip_of_lt da db as bs n (by simpa using ha) (by simpa using hb)

/-! ## C3: Splade pooling panics instead of returning an error -/

/-- C3 (counterexample): at a concrete batch with the Splade strategy,
`encode_batch_with_usage` panics with "SPLADE is not yet implemented." and
does not return an error result, contradicting the claim that it fails by
returning an `InferenceError`. -/
theorem encode_batch_splade_not_err :
    (encode_batch_with_usage (fun _ => [[[1]]]) id ⟨fun _ => [0], none⟩ ["a"]
        (.embedding .splade) false).isErr = false ∧
    encode_batch_with_usage (fun _ => [[[1]]]) id ⟨fun _ => [0], none⟩ ["a"]
        (.embedding .splade) false = .panicked "SPLADE is not yet implemented." :=
  ⟨rfl, rfl⟩

/-- C3 (amended): for every batch, when the resolved pooling strategy is
Splade, `encode_batch_with_usage` panics with "SPLADE is not yet
implemented." (a crash of the worker thread, not an error result). -/
theorem encode_batch_splade_panics
    (encode : List (List Nat) → List (List (List Scalar)))
    (nl2 : List (List Scalar) → List (List Scalar))
    (tokenizer : Tokenizer) (sentences : List String) (normalize : Bool) :
    encode_batch_with_usage encode nl2 tokenizer sentences (.embedding .splade) normalize
      = .panicked "SPLADE is not yet implemented." := rfl

/-! ## C5: the DistilBert attention mask is built over dim 0, not the sequence length -/

/-- C5 (counterexample): for the `1 × 2` token matrix `[[0, 0]]` the mask the
code builds (a square matrix over `token_ids.dim(0) = 1`) differs from the
upper-triangular `L × L` (`2 × 2`) mask the claim describes. -/
theorem distilbert_mask_not_seq_len :
    distilBertMask ([[0, 0]] : List (List Nat)).length ≠ specDistilBertMask [[0, 0]] := by
  decide

/-- C5 (amended): the DistilBert `encode` builds an `N × N` byte mask over
`N = token_ids.dim(0)` (the batch dimension) with entry `(i, j)` equal to
`1` iff `j > i`, and passes exactly that mask to the underlying forward
pass. -/
theorem distilbert_mask_batch_dim
    (forward : List (List Nat) → List (List Nat) → List (List (List Scalar)))
    (token_ids : List (List Nat)) :
    distilBertEncode forward token_ids
      = forward token_ids (distilBertMask token_ids.length) ∧
    (distilBertMask token_ids.length).length = token_ids.length ∧
    (∀ i j, i < token_ids.length → j < token_ids.length →
      ((distilBertMask token_ids.length).getD i []).getD j 0
        = if j > i then 1 else 0) := by
  refine ⟨rfl, by simp [distilBertMask], ?_⟩
  intro i j hi hj
  rw [distilBertMask,
    getD_map_of_lt _ 0 [] (List.range token_ids.length) i (by simpa using hi),
    getD_range_of_lt 0 hi,
    getD_map_of_lt _ 0 0 (List.range token_ids.length) j (by simpa using hj),
    getD_range_of_lt 0 hj]

/-- C5 (witness): the amended mask characterization at the concrete input
`[[0], [1]]` with `i = 0`, `j = 1`. -/
theorem distilbert_mask_batch_dim_witness :
    (distilBertEncode (fun _ _ => []) [[0], [1]]
       = (fun _ _ => ([] : List (List (List Scalar)))) [[0], [1]] (distilBertMask 2) ∧
     (distilBertMask ([[0], [1]] : List (List Nat)).length).length = 2 ∧
     (∀ i j, i < ([[0], [1]] : List (List Nat)).length →
        j < ([[0], [1]] : List (List Nat)).length →
        ((distilBertMask ([[0], [1]] : List (List Nat)).length).getD i []).getD j 0
          = if j > i then 1 else 0)) :=
  distilbert_mask_batch_dim (fun _ _ => []) [[0], [1]]

/-! ## C2: the embeddings response entries -/

/-- C2 (counterexample): at the concrete `1 × 1` matrix `[[1]]`, the data
entry's `object` field is not the constant string "embedding": the code sets
it to "core". -/
theorem from_embeddings_object_not_embedding :
    ((EmbeddingsResponse.from_embeddings [[1]] ⟨1, 1⟩ "m").data.map
        InnerEmbeddingsResponse.object) ≠ ["embedding"] := by
  decide

/-- C2 (amended): the response built from an `N × H` matrix contains exactly
`N` data entries, and the `i`-th entry carries index `i` (as `u32`) and the
constant object string "core" (not "embedding") together with the `i`-th
row. -/
theorem from_embeddings_data_entries (emb : List (List Scalar)) (u : Usage)
    (m : String) :
    (EmbeddingsResponse.from_embeddings emb u m).data.length = emb.length ∧
    ∀ i, i < emb.length →
      (EmbeddingsResponse.from_embeddings emb u m).data.get? i
        = some ⟨"core", emb.getD i [], i % 2 ^ 32⟩ := by
  constructor
  · simp [EmbeddingsResponse.from_embeddings]
  · intro i hi
    have h1 : (emb.enum).get? i = some (i, emb.getD i []) := by
      rw [List.enum, enumFrom_get?, get?_lt ([] : List Scalar) hi]
      simp
    simp only [EmbeddingsResponse.from_embeddings]
    rw [List.get?_eq_getElem?, List.getElem?_map, ← List.get?_eq_getElem?, h1]
    simp

/-- C2 (witness): the amended statement applied at the `2 × 1` matrix
`[[1], [2]]` with `i = 1`. -/
theorem from_embeddings_data_entries_witness :
    ((EmbeddingsResponse.from_embeddings [[1], [2]] ⟨2, 2⟩ "m").data.length
        = ([[1], [2]] : List (List Scalar)).length ∧
     ∀ i, i < ([[1], [2]] : List (List Scalar)).length →
       (EmbeddingsResponse.from_embeddings [[1], [2]] ⟨2, 2⟩ "m").data.get? i
         = some ⟨"core", ([[1], [2]] : List (List Scalar)).getD i [], i % 2 ^ 32⟩) :=
  from_embeddings_data_entries [[1], [2]] ⟨2, 2⟩ "m"

/-! ## C7: usage counts sequences, not tokens -/

theorem encodeBatchFast_length (t : Tokenizer) (sentences : List String) :
    (t.encodeBatchFast sentences).length = sentences.length := by
  simp [Tokenizer.encodeBatchFast]

/-- C7: whenever `encode_batch_with_usage` returns `Ok`, the usage reports
`prompt_tokens = total_tokens = N`, the number of input sentences (below the
`u32` range), independent of the tokenized lengths. -/
theorem encode_batch_usage_counts_sequences
    (encode : List (List Nat) → List (List (List Scalar)))
    (nl2 : List (List Scalar) → List (List Scalar))
    (t : Tokenizer) (sentences : List String) (mt : ModelType)
    (normalize : Bool) (out : EmbedOutput)
    (hN : sentences.length < 2 ^ 32)
    (h : encode_batch_with_usage encode nl2 t sentences mt normalize = .ok out) :
    out.usage.prompt_tokens = sentences.length ∧
    out.usage.total_tokens = sentences.length := by
  have hlen : (t.encodeBatchFast sentences).length % 2 ^ 32 = sentences.length := by
    rw [encodeBatchFast_length]
    exact Nat.mod_eq_of_lt hN
  rcases mt with _ | ps
  · rw [encode_batch_with_usage] at h
    cases h
    constructor <;> simpa using hlen
  · rcases ps with _ | _ | _ <;> rw [encode_batch_with_usage] at h <;> cases h <;>
      (constructor <;> simpa using hlen)

/-- C7 (witness): a concrete one-sentence batch whose single sentence
tokenizes to three tokens still reports `prompt_tokens = total_tokens = 1`. -/
theorem encode_batch_usage_counts_sequences_witness :
    (["a"] : List String).length < 2 ^ 32 ∧
    encode_batch_with_usage (fun _ => [[[5], [6], [7]]]) id
        ⟨fun _ => [3, 4, 5], none⟩ ["a"] (.embedding .cls) false
      = .ok ⟨[[5]], ⟨1, 1⟩⟩ ∧
    ((⟨[[5]], ⟨1, 1⟩⟩ : EmbedOutput).usage.prompt_tokens = (["a"] : List String).length ∧
     (⟨[[5]], ⟨1, 1⟩⟩ : EmbedOutput).usage.total_tokens = (["a"] : List String).length) :=
  ⟨by decide, rfl,
    encode_batch_usage_counts_sequences (fun _ => [[[5], [6], [7]]]) id
      ⟨fun _ => [3, 4, 5], none⟩ ["a"] (.embedding .cls) false ⟨[[5]], ⟨1, 1⟩⟩
      (by decide) rfl⟩

/-! ## C4: `parse_config` performs no architectures-count check -/

/-- C4 (counterexample): a config whose `architectures` list is empty — with
`model_type = "bert"`, deserializable Bert fields and an explicit Mean
pooling argument — parses successfully, contradicting the claim that an
empty `architectures` list is rejected. -/
theorem parse_config_empty_architectures_ok :
    parse_config ⟨some [], some "bert".toList, some 512, some 0, true, true, true⟩
        true none (some .mean)
      = .ok ⟨.bert .bert, .embedding .mean⟩ := by
  rfl

theorem archScan_eq_none (p : PoolingStrategy) (hp : p ≠ .splade) :
    ∀ archs : List Str,
      (∀ a ∈ archs, ("Classification".toList.isSuffixOf a) = false) →
      archScan p archs = none
  | [], _ => rfl
  | a :: as, h => by
      rw [archScan]
      rw [if_neg (by simp [hp]),
        if_neg (by simp only [Bool.not_eq_true]; exact h a (by simp))]
      exact archScan_eq_none p hp as (fun x hx => h x (by simp [hx]))

/-- C4 (amended): `parse_config` performs no check on the number of
`architectures` entries: for every architectures list (empty, single-entry
with an unknown name, or multi-entry) whose names do not end in
"Classification", a config with the known `model_type` tag "bert",
deserializable Bert fields and an explicit Mean pooling argument parses
successfully.  Acceptance is decided by the `model_type` tag, not by the
architecture names. -/
theorem parse_config_ignores_architectures (archs : List Str) (mpe : Nat)
    (c : ConfigJson)
    (harch : c.architectures = some archs)
    (hnoclass : ∀ a ∈ archs, ("Classification".toList.isSuffixOf a) = false)
    (htag : c.model_type = some "bert".toList)
    (hb : c.bertFieldsOk = true)
    (hmpe : c.max_position_embeddings = some mpe) :
    parse_config c true none (some .mean) = .ok ⟨.bert .bert, .embedding .mean⟩ := by
  have hscan := archScan_eq_none .mean (by decide) archs hnoclass
  simp [parse_config, parseBaseModelConfig, parseEmbedderConfig,
    get_backend_model_type, resolvePool, harch, htag, hmpe, hb, hscan,
    Bind.bind, Except.bind]

/-- C4 (witness): the amended statement at a concrete config carrying two
unknown architecture names. -/
theorem parse_config_ignores_architectures_witness :
    (⟨some ["ArchA".toList, "ArchB".toList], some "bert".toList, some 512,
        some 0, true, false, false⟩ : ConfigJson).architectures
      = some ["ArchA".toList, "ArchB".toList] ∧
    parse_config
        ⟨some ["ArchA".toList, "ArchB".toList], some "bert".toList, some 512,
          some 0, true, false, false⟩ true none (some .mean)
      = .ok ⟨.bert .bert, .embedding .mean⟩ :=
  ⟨rfl,
    parse_config_ignores_architectures ["ArchA".toList, "ArchB".toList] 512 _
      rfl (by decide) rfl rfl rfl⟩

/-! ## Lemmas about the repo-string splitting helpers -/

theorem splitOnChar_no_sep {sep : Char} :
    ∀ {l : Str}, sep ∉ l → splitOnChar sep l = [l]
  | [], _ => rfl
  | c :: rest, h => by
      have hc : ¬ c = sep := fun e => h (e ▸ List.mem_cons_self c rest)
      have ih := splitOnChar_no_sep (l := rest) (fun hm => h (List.mem_cons_of_mem c hm))
      simp [splitOnChar, hc, ih]

theorem splitOnChar_append {sep : Char} :
    ∀ {l : Str} (r : Str), sep ∉ l →
      splitOnChar sep (l ++ sep :: r) = l :: splitOnChar sep r
  | [], r, _ => by simp [splitOnChar]
  | c :: rest, r, h => by
      have hc : ¬ c = sep := fun e => h (e ▸ List.mem_cons_self c rest)
      have ih := splitOnChar_append (l := rest) r (fun hm => h (List.mem_cons_of_mem c hm))
      simp [splitOnChar, hc, ih]

theorem headD_splitOnChar (sep : Char) :
    ∀ l : Str, (splitOnChar sep l).headD [] = l.takeWhile (fun c => decide (c ≠ sep))
  | [] => rfl
  | c :: rest => by
      by_cases hc : c = sep
      · subst hc
        simp [splitOnChar, List.takeWhile_cons]
      · rw [show splitOnChar sep (c :: rest)
              = (c :: (splitOnChar sep rest).headD []) :: (splitOnChar sep rest).tail from by
            simp [splitOnChar, hc]]
        rw [List.takeWhile_cons, if_pos (by simpa using hc)]
        simpa using headD_splitOnChar sep rest

theorem isPrefixL_iff : ∀ (p s : Str), isPrefixL p s = true ↔ ∃ t, s = p ++ t
  | [], s => by simp [isPrefixL]
  | a :: as, [] => by simp [isPrefixL]
  | a :: as, b :: bs => by
      simp only [isPrefixL, Bool.and_eq_true, decide_eq_true_eq, isPrefixL_iff as bs,
        List.cons_append, List.cons.injEq]
      constructor
      · rintro ⟨rfl, t, rfl⟩
        exact ⟨t, rfl, rfl⟩
      · rintro ⟨t, rfl, rfl⟩
        exact ⟨rfl, t, rfl⟩

theorem containsSub_iff (pat : Str) :
    ∀ s : Str, containsSub pat s = true ↔ ∃ pre post, s = pre ++ pat ++ post
  | [] => by
      simp only [containsSub, isPrefixL_iff pat []]
      constructor
      · rintro ⟨t, ht⟩
        exact ⟨[], t, by simpa using ht⟩
      · rintro ⟨pre, post, h⟩
        rcases List.append_eq_nil.mp (List.append_eq_nil.mp h.symm).1 with ⟨h1, h2⟩
        exact ⟨post, by simp [h2, (List.append_eq_nil.mp h.symm).2]⟩
  | c :: rest => by
      simp only [containsSub, Bool.or_eq_true, isPrefixL_iff pat (c :: rest),
        containsSub_iff pat rest]
      constructor
      · rintro (⟨t, ht⟩ | ⟨pre, post, rfl⟩)
        · exact ⟨[], t, by simpa using ht⟩
        · exact ⟨c :: pre, post, rfl⟩
      · rintro ⟨pre, post, h⟩
        cases pre with
        | nil => exact .inl ⟨post, by simpa using h⟩
        | cons x xs =>
            right
            injection h with h1 h2
            exact ⟨xs, post, h2⟩

theorem any_illegal_eq_false {l : Str} (h : ∀ c ∈ l, c ∉ illegalChars) :
    (l.any fun c => illegalChars.contains c) = false := by
  rw [List.any_eq_false]
  intro c hc
  simpa using h c hc

/-! ## C8: repo-string revision defaults -/

/-- C8: for a repository id free of colons and illegal characters, `"id"`
and `"id:"` parse with revision "main", `"id:rev"` (rev non-empty, free of
colons and illegal characters) parses with revision "rev", and every
successful parse returns as repo id the portion of the input before the
first colon. -/
theorem parse_repo_string_revision_defaults (id rev : Str)
    (hidne : id ≠ [])
    (hidcolon : (':' : Char) ∉ id)
    (hidlegal : ∀ c ∈ id, c ∉ illegalChars)
    (hrevne : rev ≠ [])
    (hrevcolon : (':' : Char) ∉ rev)
    (hrevlegal : ∀ c ∈ rev, c ∉ illegalChars) :
    (∃ et, parse_repo_string id = .ok (id, "main".toList, et)) ∧
    (∃ et, parse_repo_string (id ++ [':']) = .ok (id, "main".toList, et)) ∧
    (∃ et, parse_repo_string (id ++ ':' :: rev) = .ok (id, rev, et)) ∧
    (∀ s out, parse_repo_string s = .ok out →
      out.1 = s.takeWhile (fun c => decide (c ≠ ':'))) := by
  have he : id.isEmpty = false := by simpa [List.isEmpty_iff] using hidne
  have ha := any_illegal_eq_false hidlegal
  have harev := any_illegal_eq_false hrevlegal
  have hcolon : (':' : Char) ∉ illegalChars := by decide
  refine ⟨?_, ?_, ?_, ?_⟩
  · cases hc : containsSub ['j','i','n','a','a','i'] id with
    | true =>
        refine ⟨.jinaBert, ?_⟩
        simp only [parse_repo_string, he, ha, Bool.false_eq_true, if_false,
          splitOnChar_no_sep hidcolon]
        simp [hc]
    | false =>
        refine ⟨.bert, ?_⟩
        simp only [parse_repo_string, he, ha, Bool.false_eq_true, if_false,
          splitOnChar_no_sep hidcolon]
        simp [hc]
  · have he2 : (id ++ [':']).isEmpty = false := by simp
    have hb2 : ((id ++ [':']).any fun c => illegalChars.contains c) = false := by
      refine any_illegal_eq_false ?_
      intro c hcm
      rcases List.mem_append.mp hcm with hmem | hmem
      · exact hidlegal c hmem
      · simp at hmem
        subst hmem
        decide
    have hsplit : splitOnChar ':' (id ++ [':']) = [id, []] := by
      have := splitOnChar_append (l := id) [] hidcolon
      simpa using this
    cases hc : containsSub ['j','i','n','a','a','i'] id with
    | true =>
        refine ⟨.jinaBert, ?_⟩
        simp only [parse_repo_string, he2, hb2, Bool.false_eq_true, if_false, hsplit]
        simp [hc]
    | false =>
        refine ⟨.bert, ?_⟩
        simp only [parse_repo_string, he2, hb2, Bool.false_eq_true, if_false, hsplit]
        simp [hc]
  · have he3 : (id ++ ':' :: rev).isEmpty = false := by simp
    have hb3 : ((id ++ ':' :: rev).any fun c => illegalChars.contains c) = false := by
      refine any_illegal_eq_false ?_
      intro c hcm
      rcases List.mem_append.mp hcm with hmem | hmem
      · exact hidlegal c hmem
      · rcases List.mem_cons.mp hmem with hmem2 | hmem2
        · subst hmem2
          decide
        · exact hrevlegal c hmem2
    have hsplit : splitOnChar ':' (id ++ ':' :: rev) = [id, rev] := by
      rw [splitOnChar_append (l := id) rev hidcolon, splitOnChar_no_sep hrevcolon]
    have hre : rev.isEmpty = false := by simpa [List.isEmpty_iff] using hrevne
    cases hc : containsSub ['j','i','n','a','a','i'] id with
    | true =>
        refine ⟨.jinaBert, ?_⟩
        simp only [parse_repo_string, he3, hb3, Bool.false_eq_true, if_false, hsplit]
        simp [hc, hre]
    | false =>
        refine ⟨.bert, ?_⟩
        simp only [parse_repo_string, he3, hb3, Bool.false_eq_true, if_false, hsplit]
        simp [hc, hre]
  · intro s out h
    simp only [parse_repo_string] at h
    split at h
    · simp at h
    · split at h
      · simp at h
      · split at h
        · split at h
          · cases h
            exact headD_splitOnChar ':' s
          · cases h
            exact headD_splitOnChar ':' s
        · split at h
          · cases h
            exact headD_splitOnChar ':' s
          · split at h
            · cases h
              exact headD_splitOnChar ':' s
            · simp at h


/-- C8 (witness): the revision-default statement at `id = "a"`,
`rev = "b"`. -/
theorem parse_repo_string_revision_defaults_witness :
    ((['a'] : Str) ≠ [] ∧ (':' : Char) ∉ (['a'] : Str) ∧
     (['b'] : Str) ≠ [] ∧ (':' : Char) ∉ (['b'] : Str)) ∧
    ((∃ et, parse_repo_string ['a'] = .ok (['a'], "main".toList, et)) ∧
     (∃ et, parse_repo_string (['a'] ++ [':']) = .ok (['a'], "main".toList, et)) ∧
     (∃ et, parse_repo_string (['a'] ++ ':' :: ['b']) = .ok (['a'], ['b'], et)) ∧
     (∀ s out, parse_repo_string s = .ok out →
       out.1 = s.takeWhile (fun c => decide (c ≠ ':')))) :=
  ⟨⟨by decide, by decide, by decide, by decide⟩,
    parse_repo_string_revision_defaults ['a'] ['b'] (by decide) (by decide)
      (by decide) (by decide) (by decide) (by decide)⟩

/-! ## C1: FIFO processing in the worker loop -/

theorem appendedIds_append {I : Type} :
    ∀ (as bs : List (Command I)),
      appendedIds (as ++ bs) = appendedIds as ++ appendedIds bs
  | [], _ => rfl
  | .append e :: as, bs => by simp [appendedIds, appendedIds_append as bs]
  | .stop :: as, bs => by simp [appendedIds, appendedIds_append as bs]

theorem mem_appendedIds_middle {I : Type} (e : QueueEntry I)
    (pre post : List (Command I)) :
    e.id ∈ appendedIds (pre ++ .append e :: post) := by
  rw [appendedIds_append]
  simp [appendedIds]

/-- C1: commands delivered on the executor channel (in send order, as the
tokio MPSC channel guarantees) are processed strictly FIFO: if entry `e1`
was sent before entry `e2` (task ids pairwise distinct, as `Uuid::new_v4`
guarantees) and the worker invokes the handler on `e2`, then it invoked the
handler on `e1` and resolved `e1`'s reply at strictly earlier positions of
the event trace. -/
theorem queue_task_fifo {I O S E : Type} (handle : S → I → Except E (O × S)) :
    ∀ (xs ys zs : List (Command I)) (e1 e2 : QueueEntry I) (s : S),
      (appendedIds (xs ++ .append e1 :: ys ++ .append e2 :: zs)).Nodup →
      Event.invoked e2.id ∈
        (queue_task handle (xs ++ .append e1 :: ys ++ .append e2 :: zs) s).1 →
      ∃ i j k, i < j ∧ j < k ∧
        (queue_task handle (xs ++ .append e1 :: ys ++ .append e2 :: zs) s).1.get? i
          = some (.invoked e1.id) ∧
        (∃ ev, (queue_task handle (xs ++ .append e1 :: ys ++ .append e2 :: zs) s).1.get? j
            = some ev ∧ resolvesReply ev e1.id) ∧
        (queue_task handle (xs ++ .append e1 :: ys ++ .append e2 :: zs) s).1.get? k
          = some (.invoked e2.id) := by
  intro xs
  induction xs with
  | nil =>
      intro ys zs e1 e2 s hnodup hinv
      simp only [List.nil_append] at hnodup hinv ⊢
      have hne : e1.id ≠ e2.id := by
        have h1 : (appendedIds (Command.append e1 :: (ys ++ .append e2 :: zs))).Nodup := hnodup
        rw [appendedIds] at h1
        have h2 := (List.nodup_cons.mp h1).1
        intro he
        exact h2 (he ▸ mem_appendedIds_middle e2 ys zs)
      rcases hh : handle s e1.request with err | os
      · simp only [queue_task, hh] at hinv
        simp at hinv
        exact absurd hinv hne.symm
      · rcases os with ⟨o, s'⟩
        simp only [queue_task, hh] at hinv ⊢
        have hinv' : Event.invoked e2.id
            ∈ (queue_task handle (ys ++ .append e2 :: zs) s').1 := by
          rcases List.mem_cons.mp hinv with h | h
          · exact absurd (Event.invoked.inj h) hne.symm
          · rcases List.mem_cons.mp h with h2 | h2
            · by_cases hrx : e1.rxAlive <;> simp [hrx] at h2
            · exact h2
        obtain ⟨k', hk'⟩ := List.mem_iff_get?.mp hinv'
        refine ⟨0, 1, k' + 2, by omega, by omega, rfl, ?_, by simpa using hk'⟩
        refine ⟨_, rfl, ?_⟩
        by_cases hrx : e1.rxAlive <;> simp [hrx, resolvesReply]
  | cons c xs ih =>
      intro ys zs e1 e2 s hnodup hinv
      cases c with
      | stop =>
          simp [queue_task] at hinv
      | append e0 =>
          rw [List.cons_append] at hnodup hinv ⊢
          have h1 : (appendedIds (Command.append e0 ::
              (xs ++ .append e1 :: ys ++ .append e2 :: zs))).Nodup := hnodup
          rw [appendedIds] at h1
          have hmem0 := (List.nodup_cons.mp h1).1
          have hnd' := (List.nodup_cons.mp h1).2
          have hne0 : e0.id ≠ e2.id := by
            intro he
            have hmm : e2.id ∈ appendedIds (xs ++ .append e1 :: ys ++ .append e2 :: zs) := by
              have h3 := mem_appendedIds_middle e2 (xs ++ .append e1 :: ys) zs
              simpa [List.append_assoc] using h3
            exact hmem0 (he ▸ hmm)
          rcases hh : handle s e0.request with err | os
          · simp only [queue_task, hh] at hinv
            simp at hinv
            exact absurd hinv hne0.symm
          · rcases os with ⟨o, s'⟩
            simp only [queue_task, hh] at hinv ⊢
            have hinv' : Event.invoked e2.id
                ∈ (queue_task handle (xs ++ .append e1 :: ys ++ .append e2 :: zs) s').1 := by
              rcases List.mem_cons.mp hinv with h | h
              · exact absurd (Event.invoked.inj h) hne0.symm
              · rcases List.mem_cons.mp h with h2 | h2
                · by_cases hrx : e0.rxAlive <;> simp [hrx] at h2
                · exact h2
            obtain ⟨i, j, k, hij, hjk, hi, hj, hk⟩ := ih ys zs e1 e2 s' hnd' hinv'
            rcases hj with ⟨ev, hev, hres⟩
            exact ⟨i + 2, j + 2, k + 2, by omega, by omega, by simpa using hi,
              ⟨ev, by simpa using hev, hres⟩, by simpa using hk⟩


/-- C1 (witness): the FIFO statement on a concrete two-request run. -/
theorem queue_task_fifo_witness :
    ((appendedIds (([] : List (Command Nat)) ++ .append ⟨1, 10, true⟩ ::
        ([] : List (Command Nat)) ++ .append ⟨2, 20, true⟩ :: [])).Nodup ∧
     Event.invoked (2 : Nat) ∈
       (queue_task (fun (s i : Nat) => (.ok (i, s) : Except String (Nat × Nat)))
         (([] : List (Command Nat)) ++ .append ⟨1, 10, true⟩ ::
           ([] : List (Command Nat)) ++ .append ⟨2, 20, true⟩ :: []) 0).1) ∧
    (∃ i j k, i < j ∧ j < k ∧
      (queue_task (fun (s i : Nat) => (.ok (i, s) : Except String (Nat × Nat)))
        (([] : List (Command Nat)) ++ .append ⟨1, 10, true⟩ ::
          ([] : List (Command Nat)) ++ .append ⟨2, 20, true⟩ :: []) 0).1.get? i
        = some (.invoked 1) ∧
      (∃ ev, (queue_task (fun (s i : Nat) => (.ok (i, s) : Except String (Nat × Nat)))
          (([] : List (Command Nat)) ++ .append ⟨1, 10, true⟩ ::
            ([] : List (Command Nat)) ++ .append ⟨2, 20, true⟩ :: []) 0).1.get? j
          = some ev ∧ resolvesReply ev 1) ∧
      (queue_task (fun (s i : Nat) => (.ok (i, s) : Except String (Nat × Nat)))
        (([] : List (Command Nat)) ++ .append ⟨1, 10, true⟩ ::
          ([] : List (Command Nat)) ++ .append ⟨2, 20, true⟩ :: []) 0).1.get? k
        = some (.invoked 2)) :=
  ⟨⟨by decide, by decide⟩,
    queue_task_fifo (fun (s i : Nat) => (.ok (i, s) : Except String (Nat × Nat)))
      [] [] [] ⟨1, 10, true⟩ ⟨2, 20, true⟩ 0 (by decide) (by decide)⟩

/-! ## C9: a handler error stops the worker -/

theorem execRun_exited {I O S E : Type} (handle : S → I → Except E (O × S))
    (st : ExecState I S E) (r : Except E Unit) (hst : st.status = .exited r) :
    ∀ acts, execRun handle st acts = st
  | [] => rfl
  | a :: rest => by
      have hstep : (execStep handle st a).1 = st := by
        cases a with
        | clientSend e => simp [execStep, hst]
        | workerStep => simp [execStep, hst]
      rw [execRun, hstep, execRun_exited handle st r hst rest]

/-- C9 (counterexample): after the handler returns an error for the first
queued entry and the worker processes it, a subsequent `Client::send` on the
same executor returns an error — it does not continue to succeed — because
`queue_task` has returned and the channel receiver is dropped. -/
theorem executor_send_after_error_fails :
    (execStep (fun (_ _ : Nat) => (.error "boom" : Except String (Nat × Nat)))
      (execRun (fun (_ _ : Nat) => (.error "boom" : Except String (Nat × Nat)))
        ⟨[], 0, .running, []⟩
        [.clientSend ⟨1, 42, true⟩, .workerStep])
      (.clientSend ⟨2, 43, true⟩)).2 = some .sendErr := by
  rfl

/-- C9 (amended): if the handler returns an error for the entry at the head
of the queue, the worker step exits the loop with that error, records only
the handler invocation (no reply is sent for the failing entry), never
processes anything afterwards — the trace stays frozen for every
continuation, so the reply senders of all later entries are dropped — and
every subsequent `Client::send` on the same executor fails (rather than
continuing to succeed), since the channel receiver is dropped when
`queue_task` returns. -/
theorem executor_error_stops_worker {I O S E : Type}
    (handle : S → I → Except E (O × S)) (st : ExecState I S E)
    (e : QueueEntry I) (rest : List (Command I)) (err : E)
    (hrun : st.status = .running)
    (hchan : st.chan = .append e :: rest)
    (herr : handle st.handler e.request = .error err) :
    (execStep handle st .workerStep).1.status = .exited (.error err) ∧
    (execStep handle st .workerStep).1.trace = st.trace ++ [.invoked e.id] ∧
    (∀ acts, (execRun handle (execStep handle st .workerStep).1 acts).trace
        = st.trace ++ [.invoked e.id]) ∧
    (∀ e2, (execStep handle (execStep handle st .workerStep).1 (.clientSend e2)).2
        = some .sendErr) := by
  have hstep : (execStep handle st .workerStep).1
      = ⟨rest, st.handler, .exited (.error err), st.trace ++ [.invoked e.id]⟩ := by
    simp [execStep, hrun, hchan, herr]
  refine ⟨by rw [hstep], by rw [hstep], ?_, ?_⟩
  · intro acts
    rw [execRun_exited handle _ (.error err) (by rw [hstep]) acts, hstep]
  · intro e2
    rw [hstep]
    rfl

/-- C9 (witness): the amended statement on a concrete executor whose handler
fails on the single queued entry. -/
theorem executor_error_stops_worker_witness :
    ((⟨[.append ⟨1, 42, true⟩], 0, .running, []⟩ :
        ExecState Nat Nat String).status = .running ∧
     (⟨[.append ⟨1, 42, true⟩], 0, .running, []⟩ :
        ExecState Nat Nat String).chan = .append ⟨1, 42, true⟩ :: [] ∧
     (fun (_ _ : Nat) => (.error "boom" : Except String (Nat × Nat))) 0 42
       = .error "boom") ∧
    ((execStep (fun (_ _ : Nat) => (.error "boom" : Except String (Nat × Nat)))
        ⟨[.append ⟨1, 42, true⟩], 0, .running, []⟩ .workerStep).1.status
      = .exited (.error "boom") ∧
     (execStep (fun (_ _ : Nat) => (.error "boom" : Except String (Nat × Nat)))
        ⟨[.append ⟨1, 42, true⟩], 0, .running, []⟩ .workerStep).1.trace
      = [] ++ [.invoked 1] ∧
     (∀ acts, (execRun (fun (_ _ : Nat) => (.error "boom" : Except String (Nat × Nat)))
        ((execStep (fun (_ _ : Nat) => (.error "boom" : Except String (Nat × Nat)))
          ⟨[.append ⟨1, 42, true⟩], 0, .running, []⟩ .workerStep).1) acts).trace
      = [] ++ [.invoked 1]) ∧
     (∀ e2, (execStep (fun (_ _ : Nat) => (.error "boom" : Except String (Nat × Nat)))
        ((execStep (fun (_ _ : Nat) => (.error "boom" : Except String (Nat × Nat)))
          ⟨[.append ⟨1, 42, true⟩], 0, .running, []⟩ .workerStep).1)
        (.clientSend e2)).2 = some .sendErr)) :=
  ⟨⟨rfl, rfl, rfl⟩,
    executor_error_stops_worker (fun (_ _ : Nat) => .error "boom")
      ⟨[.append ⟨1, 42, true⟩], 0, .running, []⟩ ⟨1, 42, true⟩ [] "boom"
      rfl rfl rfl⟩

/-! ## C10: the third colon-separated component selects the embedder type -/

/-- C10: for well-formed components (colon-free, no illegal characters), a
third component lowercasing to "bert" or "jinabert" selects the
corresponding embedder type, any other third component fails with "Invalid
embedder type", and with no third component the type is JinaBert iff the
repo id contains the substring "jinaai" (and Bert otherwise). -/
theorem parse_repo_string_embedder_type (id rev et : Str)
    (hidcolon : (':' : Char) ∉ id)
    (hidlegal : ∀ c ∈ id, c ∉ illegalChars)
    (hrevcolon : (':' : Char) ∉ rev)
    (hrevlegal : ∀ c ∈ rev, c ∉ illegalChars)
    (hetcolon : (':' : Char) ∉ et)
    (hetlegal : ∀ c ∈ et, c ∉ illegalChars) :
    (strToLower et = "bert".toList →
      parse_repo_string (id ++ ':' :: (rev ++ ':' :: et))
        = .ok (id, if rev.isEmpty then "main".toList else rev, .bert)) ∧
    (strToLower et = "jinabert".toList →
      parse_repo_string (id ++ ':' :: (rev ++ ':' :: et))
        = .ok (id, if rev.isEmpty then "main".toList else rev, .jinaBert)) ∧
    (strToLower et ≠ "bert".toList → strToLower et ≠ "jinabert".toList →
      parse_repo_string (id ++ ':' :: (rev ++ ':' :: et))
        = .error "Invalid embedder type") ∧
    (parse_repo_string (id ++ ':' :: rev)
        = .ok (id, if rev.isEmpty then "main".toList else rev,
            if containsSub "jinaai".toList id then .jinaBert else .bert)) ∧
    (containsSub "jinaai".toList id = true ↔
      ∃ pre post, id = pre ++ "jinaai".toList ++ post) := by
  have he : (id ++ ':' :: (rev ++ ':' :: et)).isEmpty = false := by simp
  have hb : ((id ++ ':' :: (rev ++ ':' :: et)).any
      fun c => illegalChars.contains c) = false := by
    refine any_illegal_eq_false ?_
    intro c hcm
    rcases List.mem_append.mp hcm with hmem | hmem
    · exact hidlegal c hmem
    · rcases List.mem_cons.mp hmem with hmem2 | hmem2
      · subst hmem2
        decide
      · rcases List.mem_append.mp hmem2 with hmem3 | hmem3
        · exact hrevlegal c hmem3
        · rcases List.mem_cons.mp hmem3 with hmem4 | hmem4
          · subst hmem4
            decide
          · exact hetlegal c hmem4
  have hsplit3 : splitOnChar ':' (id ++ ':' :: (rev ++ ':' :: et)) = [id, rev, et] := by
    rw [splitOnChar_append (l := id) _ hidcolon, splitOnChar_append (l := rev) _ hrevcolon,
      splitOnChar_no_sep hetcolon]
  have he2 : (id ++ ':' :: rev).isEmpty = false := by simp
  have hb2 : ((id ++ ':' :: rev).any fun c => illegalChars.contains c) = false := by
    refine any_illegal_eq_false ?_
    intro c hcm
    rcases List.mem_append.mp hcm with hmem | hmem
    · exact hidlegal c hmem
    · rcases List.mem_cons.mp hmem with hmem2 | hmem2
      · subst hmem2
        decide
      · exact hrevlegal c hmem2
  have hsplit2 : splitOnChar ':' (id ++ ':' :: rev) = [id, rev] := by
    rw [splitOnChar_append (l := id) _ hidcolon, splitOnChar_no_sep hrevcolon]
  refine ⟨?_, ?_, ?_, ?_, containsSub_iff _ id⟩
  · intro hlow
    simp only [parse_repo_string, he, hb, Bool.false_eq_true, if_false, hsplit3]
    simp [hlow]
  · intro hlow
    simp only [parse_repo_string, he, hb, Bool.false_eq_true, if_false, hsplit3]
    simp [hlow]
  · intro hne1 hne2
    have hne1' : strToLower et ≠ ['b','e','r','t'] := hne1
    have hne2' : strToLower et ≠ ['j','i','n','a','b','e','r','t'] := hne2
    simp only [parse_repo_string, he, hb, Bool.false_eq_true, if_false, hsplit3]
    simp [hne1', hne2']
  · cases hc : containsSub ['j','i','n','a','a','i'] id with
    | true =>
        simp only [parse_repo_string, he2, hb2, Bool.false_eq_true, if_false, hsplit2]
        simp [hc]
    | false =>
        simp only [parse_repo_string, he2, hb2, Bool.false_eq_true, if_false, hsplit2]
        simp [hc]


/-- C10 (witness): the embedder-type statement at `id = "a"`, `rev = "b"`,
`et = "BERT"` (exercising case-insensitivity through `strToLower`). -/
theorem parse_repo_string_embedder_type_witness :
    ((':' : Char) ∉ (['a'] : Str) ∧ (':' : Char) ∉ (['b'] : Str) ∧
     (':' : Char) ∉ (['B','E','R','T'] : Str)) ∧
    ((strToLower ['B','E','R','T'] = "bert".toList →
       parse_repo_string (['a'] ++ ':' :: (['b'] ++ ':' :: ['B','E','R','T']))
         = .ok (['a'], if (['b'] : Str).isEmpty then "main".toList else ['b'], .bert)) ∧
     (strToLower ['B','E','R','T'] = "jinabert".toList →
       parse_repo_string (['a'] ++ ':' :: (['b'] ++ ':' :: ['B','E','R','T']))
         = .ok (['a'], if (['b'] : Str).isEmpty then "main".toList else ['b'], .jinaBert)) ∧
     (strToLower ['B','E','R','T'] ≠ "bert".toList →
       strToLower ['B','E','R','T'] ≠ "jinabert".toList →
       parse_repo_string (['a'] ++ ':' :: (['b'] ++ ':' :: ['B','E','R','T']))
         = .error "Invalid embedder type") ∧
     (parse_repo_string (['a'] ++ ':' :: ['b'])
         = .ok (['a'], if (['b'] : Str).isEmpty then "main".toList else ['b'],
             if containsSub "jinaai".toList ['a'] then .jinaBert else .bert)) ∧
     (containsSub "jinaai".toList ['a'] = true ↔
       ∃ pre post, (['a'] : Str) = pre ++ "jinaai".toList ++ post)) :=
  ⟨⟨by decide, by decide, by decide⟩,
    parse_repo_string_embedder_type ['a'] ['b'] ['B','E','R','T']
      (by decide) (by decide) (by decide) (by decide) (by decide) (by decide)⟩

/-! ## C6: Mean pooling is a mask-weighted sum (no divisor) -/

theorem getD_zipWith_add :
    ∀ (a b : List Scalar) (k : Nat), k < a.length → k < b.length →
      (List.zipWith (· + ·) a b).getD k 0 = a.getD k 0 + b.getD k 0
  | x :: xs, y :: ys, 0, _, _ => by simp
  | x :: xs, y :: ys, k + 1, ha, hb => by
      simpa using getD_zipWith_add xs ys k (by simpa using ha) (by simpa using hb)

theorem addVec_length (v w : List Scalar) :
    (addVec v w).length = min v.length w.length := by
  simp [addVec]

theorem foldl_addVec_getD (H k : Nat) (hk : k < H) :
    ∀ (vs : List (List Scalar)) (acc : List Scalar), acc.length = H →
      (∀ v ∈ vs, v.length = H) →
      (vs.foldl addVec acc).getD k 0
        = acc.getD k 0 + (vs.map (fun v => v.getD k 0)).sum
  | [], acc, _, _ => by simp
  | v :: vs, acc, hacc, hv => by
      have hlen : (addVec acc v).length = H := by
        rw [addVec_length, hacc, hv v (by simp)]
        simp
      have ih := foldl_addVec_getD H k hk vs (addVec acc v) hlen
        (fun w hw => hv w (by simp [hw]))
      rw [List.foldl_cons, ih, addVec,
        getD_zipWith_add acc v k (by omega) (by rw [hv v (by simp)]; omega)]
      simp [add_assoc]

theorem sumVecs_getD (H k : Nat) (hk : k < H) :
    ∀ vs : List (List Scalar), (∀ v ∈ vs, v.length = H) →
      (sumVecs vs).getD k 0 = (vs.map (fun v => v.getD k 0)).sum
  | [], _ => by simp [sumVecs]
  | v :: vs, hv => by
      rw [sumVecs, foldl_addVec_getD H k hk vs v (hv v (by simp))
        (fun w hw => hv w (by simp [hw]))]
      simp

theorem scaled_sum_eq (H k : Nat) (hk : k < H) :
    ∀ (vecs : List (List Scalar)) (ms : List Scalar),
      vecs.length = ms.length → (∀ v ∈ vecs, v.length = H) →
      (sumVecs ((vecs.zip ms).map (fun q => q.1.map (fun x => q.2 * x)))).getD k 0
        = ∑ j ∈ Finset.range vecs.length,
            ms.getD j 0 * ((vecs.getD j []).getD k 0)
  | [], [], _, _ => by simp [sumVecs]
  | [], m :: ms, hlen, _ => by simp at hlen
  | v :: vs, [], hlen, _ => by simp at hlen
  | v :: vs, m :: ms, hlen, hv => by
      have hkv : k < v.length := by rw [hv v (by simp)]; omega
      have hall : ∀ w ∈ ((v :: vs).zip (m :: ms)).map
          (fun q => q.1.map (fun x => q.2 * x)), w.length = H := by
        intro w hw
        rcases List.mem_map.mp hw with ⟨q, hq, rfl⟩
        rcases List.of_mem_zip hq with ⟨hq1, _⟩
        simp [hv q.1 hq1]
      rw [sumVecs_getD H k hk _ hall]
      simp only [List.zip_cons_cons, List.map_cons, List.sum_cons]
      rw [getD_map_of_lt _ 0 0 v k hkv]
      have hall' : ∀ w ∈ (vs.zip ms).map (fun q => q.1.map (fun x => q.2 * x)),
          w.length = H := by
        intro w hw
        rcases List.mem_map.mp hw with ⟨q, hq, rfl⟩
        rcases List.of_mem_zip hq with ⟨hq1, _⟩
        simp [hv q.1 (by simp [hq1])]
      have ih := scaled_sum_eq H k hk vs ms (by simpa using hlen)
        (fun w hw => hv w (by simp [hw]))
      rw [← sumVecs_getD H k hk _ hall'] at *
      rw [ih, List.length_cons, Finset.sum_range_succ']
      simp only [List.getD_cons_succ, List.getD_cons_zero]
      ring

/-- C6: under Mean pooling (normalize = false, as the server calls it), the
pooled row for sequence `i` is exactly the sum over token positions `j` of
`embeddings[i][j]` scaled by the mask `(token_ids[i][j] != pad_id)` — a
mask-weighted sum with no division by the live-token count.  The shape
hypotheses are the `N x L x H` contract of the neural forward pass. -/
theorem encode_batch_mean_pooling
    (encode : List (List Nat) → List (List (List Scalar)))
    (nl2 : List (List Scalar) → List (List Scalar))
    (t : Tokenizer) (sentences : List String) (out : EmbedOutput) (H : Nat)
    (hlen : (encode (t.encodeBatchFast sentences)).length
        = (t.encodeBatchFast sentences).length)
    (hrow : ∀ i, i < (t.encodeBatchFast sentences).length →
        ((encode (t.encodeBatchFast sentences)).getD i []).length
          = ((t.encodeBatchFast sentences).getD i []).length)
    (hvec : ∀ row ∈ encode (t.encodeBatchFast sentences), ∀ v ∈ row, v.length = H)
    (hok : encode_batch_with_usage encode nl2 t sentences (.embedding .mean) false
        = .ok out) :
    out.embeddings.length = sentences.length ∧
    ∀ i k, i < sentences.length → k < H →
      (out.embeddings.getD i []).getD k 0
        = ∑ j ∈ Finset.range ((t.encodeBatchFast sentences).getD i []).length,
            (if ((t.encodeBatchFast sentences).getD i []).getD j 0 ≠ t.padding.getD 0
              then 1 else 0)
            * (((encode (t.encodeBatchFast sentences)).getD i []).getD j []).getD k 0 := by
  simp only [encode_batch_with_usage, Bool.false_eq_true, if_false] at hok
  cases hok
  constructor
  · simp [broadcastMulSum, tensorNe, hlen, encodeBatchFast_length]
  · intro i k hi hkH
    have hiT : i < (t.encodeBatchFast sentences).length := by
      rw [encodeBatchFast_length]
      exact hi
    have hiE : i < (encode (t.encodeBatchFast sentences)).length := by
      rw [hlen]
      exact hiT
    have hiM : i < (tensorNe (t.encodeBatchFast sentences) (t.padding.getD 0)).length := by
      simpa [tensorNe] using hiT
    rw [broadcastMulSum,
      getD_map_of_lt _ (([], []) : List (List Scalar) × List Scalar) [] _ i
        (by simpa [List.length_zip] using lt_min hiE hiM),
      getD_zip_of_lt [] [] _ _ i hiE hiM]
    have hmaskrow : (tensorNe (t.encodeBatchFast sentences) (t.padding.getD 0)).getD i []
        = ((t.encodeBatchFast sentences).getD i []).map
            (fun tid => if tid ≠ t.padding.getD 0 then (1 : Scalar) else 0) := by
      rw [tensorNe, getD_map_of_lt _ [] [] _ i hiT]
    rw [hmaskrow]
    have hmem : (encode (t.encodeBatchFast sentences)).getD i []
        ∈ encode (t.encodeBatchFast sentences) := by
      have := get?_lt ([] : List (List Scalar)) hiE
      exact List.get?_mem this
    dsimp only
    rw [scaled_sum_eq H k hkH _ _
      (by rw [List.length_map]; exact hrow i hiT)
      (fun v hv => hvec _ hmem v hv)]
    rw [hrow i hiT]
    refine Finset.sum_congr rfl ?_
    intro j hj
    rw [getD_map_of_lt _ 0 0 _ j (Finset.mem_range.mp hj)]


/-- C6 (witness): the mean-pooling characterization on a concrete two-
sentence batch (`H = 2`, second token position carrying the pad id 0). -/
theorem encode_batch_mean_pooling_witness :
    (((fun _ => [[[1,2],[3,4]],[[5,6],[7,8]]]) ((⟨fun _ => [7, 0],
          some 0⟩ : Tokenizer).encodeBatchFast ["a", "b"]) : List (List (List Scalar))).length
        = ((⟨fun _ => [7, 0],
            some 0⟩ : Tokenizer).encodeBatchFast ["a", "b"]).length ∧
     encode_batch_with_usage (fun _ => [[[1,2],[3,4]],[[5,6],[7,8]]]) id
        ⟨fun _ => [7, 0], some 0⟩ ["a", "b"]
        (.embedding .mean) false
       = .ok ⟨[[1, 2], [5, 6]], ⟨2, 2⟩⟩) ∧
    ((⟨[[1, 2], [5, 6]], ⟨2, 2⟩⟩ : EmbedOutput).embeddings.length
        = (["a", "b"] : List String).length ∧
     ∀ i k, i < (["a", "b"] : List String).length → k < 2 →
       ((⟨[[1, 2], [5, 6]], ⟨2, 2⟩⟩ : EmbedOutput).embeddings.getD i []).getD k 0
         = ∑ j ∈ Finset.range
             (((⟨fun _ => [7, 0],
                 some 0⟩ : Tokenizer).encodeBatchFast ["a", "b"]).getD i []).length,
             (if ((( ⟨fun _ => [7, 0],
                   some 0⟩ : Tokenizer).encodeBatchFast ["a", "b"]).getD i []).getD j 0
                 ≠ (⟨fun _ => [7, 0],
                    some 0⟩ : Tokenizer).padding.getD 0
               then 1 else 0)
             * ((((fun _ => [[[1,2],[3,4]],[[5,6],[7,8]]])
                   ((⟨fun _ => [7, 0],
                     some 0⟩ : Tokenizer).encodeBatchFast ["a", "b"])
                   : List (List (List Scalar))).getD i []).getD j []).getD k 0) :=
  ⟨⟨rfl, by norm_num [encode_batch_with_usage, Tokenizer.encodeBatchFast,
        broadcastMulSum, tensorNe, sumVecs, addVec]⟩,
    encode_batch_mean_pooling (fun _ => [[[1,2],[3,4]],[[5,6],[7,8]]]) id
      ⟨fun _ => [7, 0], some 0⟩ ["a", "b"]
      ⟨[[1, 2], [5, 6]], ⟨2, 2⟩⟩ 2 rfl (by decide) (by decide)
      (by norm_num [encode_batch_with_usage, Tokenizer.encodeBatchFast,
        broadcastMulSum, tensorNe, sumVecs, addVec])⟩

end Glowrs
